import Mathlib

/-!
A shallow embedding of the `longkai/encoding` repository: the `form` package
(field-mapping and type-coercion engine, `form/decode.go`) and the `reqconv`
package (content-type dispatcher, `reqconv.Unmarshal`).

Go maps (`url.Values`, the fields table) are embedded as association lists;
iteration order, which Go leaves unspecified for maps, is fixed as list order.
Machine integers are embedded as `Int`/`Nat` with explicit range checks where
the Go code checks ranges (`strconv.ParseInt` with bitSize 64).
-/

namespace GoEncoding

/-! ## Models of the Go standard-library helpers called by `form/decode.go`.

`strconv.ParseInt`, `strconv.ParseBool` and `strconv.ParseFloat` are the Go
standard library routines invoked by `populate`; they are embedded here
following their documented behavior.  Error values render as Go's
`strconv.NumError.Error()` string (escaping inside `strconv.Quote` is not
modelled: the quoted numeral is wrapped in plain double quotes, which agrees
with Go on every numeral free of quotes/backslashes/control characters). -/

def goQuote (s : String) : String := "\"" ++ s ++ "\""

def digitsToNat (l : List Char) : Nat :=
  l.foldl (fun a c => a * 10 + (c.toNat - 48)) 0

/-- Model of `strconv.ParseInt(s, 10, 64)`: optional sign, one or more base-10
digits, result required to fit in a signed 64-bit integer (range failure is
`value out of range`, anything non-numeric is `invalid syntax`). -/
def parseInt64 (s : String) : Except String Int :=
  let wrap := fun (e : String) =>
    Except.error ("strconv.ParseInt: parsing " ++ goQuote s ++ ": " ++ e)
  match s.data with
  | [] => wrap "invalid syntax"
  | c :: cs =>
    let neg := c = '-'
    let ds := if c = '-' ∨ c = '+' then cs else c :: cs
    if ds.isEmpty ∨ ¬ ds.all Char.isDigit then wrap "invalid syntax"
    else
      let n := digitsToNat ds
      if neg then
        if n ≤ 2 ^ 63 then Except.ok (-(n : Int)) else wrap "value out of range"
      else
        if n ≤ 2 ^ 63 - 1 then Except.ok (n : Int) else wrap "value out of range"

/-- Model of `strconv.ParseBool`: accepts exactly the twelve spellings
`1, t, T, TRUE, true, True, 0, f, F, FALSE, false, False`. -/
def parseBool (s : String) : Except String Bool :=
  if s = "1" ∨ s = "t" ∨ s = "T" ∨ s = "TRUE" ∨ s = "true" ∨ s = "True" then
    Except.ok true
  else if s = "0" ∨ s = "f" ∨ s = "F" ∨ s = "FALSE" ∨ s = "false" ∨ s = "False" then
    Except.ok false
  else
    Except.error ("strconv.ParseBool: parsing " ++ goQuote s ++ ": invalid syntax")

/-- Model of `strconv.ParseFloat(s, 64)` on decimal forms
`[sign] (digits [. digits] | . digits) [(e|E) [sign] digits]`, with the value
kept exactly as a rational (IEEE-754 rounding to the nearest binary64 is not
modelled, nor are the `inf`/`nan` spellings, hexadecimal floats and digit
underscores; no claim in this development depends on float values). -/
def parseFloat (s : String) : Except String Rat :=
  let wrap :=
    Except.error ("strconv.ParseFloat: parsing " ++ goQuote s ++ ": invalid syntax")
  match s.data with
  | [] => wrap
  | c :: cs =>
    let neg := c = '-'
    let rest := if c = '-' ∨ c = '+' then cs else c :: cs
    let ip := rest.takeWhile Char.isDigit
    let rest1 := rest.dropWhile Char.isDigit
    let fp := match rest1 with
      | '.' :: t => t.takeWhile Char.isDigit
      | _ => []
    let rest2 := match rest1 with
      | '.' :: t => t.dropWhile Char.isDigit
      | _ => rest1
    if ip.isEmpty ∧ fp.isEmpty then wrap
    else
      let mant : Rat := (digitsToNat ip : Rat) + (digitsToNat fp : Rat) / (10 : Rat) ^ fp.length
      match rest2 with
      | [] => Except.ok (if neg then -mant else mant)
      | e :: t =>
        if e = 'e' ∨ e = 'E' then
          let eneg := match t with
            | '-' :: _ => true
            | _ => false
          let t2 := match t with
            | '-' :: u => u
            | '+' :: u => u
            | u => u
          let ed := t2.takeWhile Char.isDigit
          let t3 := t2.dropWhile Char.isDigit
          if ed.isEmpty ∨ ¬ t3.isEmpty then wrap
          else
            let ex := digitsToNat ed
            let m := if eneg then mant / (10 : Rat) ^ ex else mant * (10 : Rat) ^ ex
            Except.ok (if neg then -m else m)
        else wrap

/-! ## Data model of the binder (`form/decode.go`). -/

/-- The declared Go type of one struct field slot, as `populate` /
`populatePart` dispatch on it (`reflect.Kind` for the four supported scalar
kinds, the `*multipart.FileHeader` pointer type, and `other` for every
remaining scalar kind such as `int64`, `int32`, `uint`, carrying the string
that `v.Type()` prints). -/
inductive Kind
  | string
  | int
  | bool
  | float64
  | filePtr
  | other (typeName : String)
deriving DecidableEq

/-- The string `v.Type()` prints for a field of this kind. -/
def Kind.typeName : Kind → String
  | .string => "string"
  | .int => "int"
  | .bool => "bool"
  | .float64 => "float64"
  | .filePtr => "*multipart.FileHeader"
  | .other t => t

/-- The string `v.Kind()` prints for a field of this kind (used by
`populatePart`); for the primitive named kinds it coincides with the type
name, for the file-header pointer it is `ptr`. -/
def Kind.kindString : Kind → String
  | .filePtr => "ptr"
  | k => k.typeName

/-- A `*multipart.FileHeader`: the opaque file-part handle (name and size
metadata; contents are never read by this system). -/
structure FilePart where
  filename : String
  size : Int
deriving DecidableEq

/-- A runtime value held in one scalar slot. A `file` holding `none` models a
nil `*multipart.FileHeader`; `other` is the opaque value of an unsupported
kind. -/
inductive Val
  | str (s : String)
  | int (i : Int)
  | bool (b : Bool)
  | float (q : Rat)
  | file (h : Option FilePart)
  | other (typeName : String)
deriving DecidableEq

/-- The zero value `reflect.New(ty).Elem()` produces for a kind. -/
def Kind.zeroVal : Kind → Val
  | .string => .str ""
  | .int => .int 0
  | .bool => .bool false
  | .float64 => .float 0
  | .filePtr => .file none
  | .other t => .other t

/-- The current contents of one struct field: a scalar slot or a slice slot
(with its element kind, so fresh zero elements can be allocated on append). -/
inductive FieldVal
  | scalar (k : Kind) (v : Val)
  | slice (k : Kind) (vs : List Val)
deriving DecidableEq

/-- One field of the destination record: the declared Go identifier, the value
of the struct tag under the active tag key (`""` when the tag is absent — Go's
`tag.Get` returns `""` for both an absent and an empty tag), and the current
contents. -/
structure Field where
  fname : String
  tag : String
  value : FieldVal
deriving DecidableEq

/-- `form.FieldTag`, the process-wide default tag key. -/
def FieldTag : String := "json"

/-- `form.MultipartMaxMemory`, the process-wide multipart memory threshold, as
initialized in `form/decode.go` (`var MultipartMaxMemory int64 = 10 * 1024`). -/
def MultipartMaxMemory : Int := 10 * 1024

/-- The name-derivation loop of `UnpackWithOption`: lower-case the first
character of the identifier, keep the rest unchanged (the Go source runs
`strings.ToLower(name[:i+1]) + name[i+1:]` once at the first byte; embedded at
character granularity, which agrees with Go on ASCII identifiers). -/
def lowerFirst (s : String) : String :=
  match s.data with
  | [] => ""
  | c :: cs => String.mk (c.toLower :: cs)

/-- The effective external name of a field: the tag value under the active tag
key when non-empty, otherwise the first-character-lower-cased identifier. -/
def effName (f : Field) : String :=
  if f.tag = "" then lowerFirst f.fname else f.tag

/-- A value source: an association list from external name to the ordered list
of raw string values (Go's `url.Values`; keys are assumed unique as in a Go
map, and map iteration order is fixed as list order). -/
abbrev Form := List (String × List String)

/-- The fields table `fields[name]` of `UnpackWithOption`: the map is built
front to back, so a name collision keeps the last-seen slot; the model returns
the index of the last field whose effective name matches. -/
def findSlot : List Field → String → Option Nat
  | [], _ => none
  | f :: rest, name =>
    match findSlot rest name with
    | some i => some (i + 1)
    | none => if effName f = name then some 0 else none

/-- `populate(v, value)` from `form/decode.go`: coerce one raw string into a
slot of the given kind. -/
def populate (k : Kind) (value : String) : Except String Val :=
  match k with
  | .string => Except.ok (.str value)
  | .int => (parseInt64 value).map Val.int
  | .bool => (parseBool value).map Val.bool
  | .float64 => (parseFloat value).map Val.float
  | k => Except.error ("unsupported kind " ++ k.typeName)

/-- `populatePart(v, part)` from `form/decode.go`: bind one file-part handle
into a slot; only a `*multipart.FileHeader` slot accepts it. -/
def populatePart (k : Kind) (part : FilePart) : Except String Val :=
  if k = Kind.filePtr then Except.ok (.file (some part))
  else Except.error ("unsupported multipart kind " ++ k.kindString)

/-- The inner loop of `unpack` over one value list: a slice slot coerces each
value into a fresh zero element and appends; a scalar slot coerces each value
in order and overwrites.  The first failure stops, wrapped as
`fmt.Errorf("%s: %v", name, err)`, leaving earlier work in place. -/
def bindValues (name : String) : FieldVal → List String → FieldVal × Option String
  | fv, [] => (fv, none)
  | .slice k vs, value :: rest =>
    match populate k value with
    | .ok v => bindValues name (.slice k (vs ++ [v])) rest
    | .error e => (.slice k vs, some (name ++ ": " ++ e))
  | .scalar k v0, value :: rest =>
    match populate k value with
    | .ok v => bindValues name (.scalar k v) rest
    | .error e => (.scalar k v0, some (name ++ ": " ++ e))

/-- The inner loop of `unpackMultipart` over one part list, mirroring
`bindValues` with `populatePart`. -/
def bindParts (name : String) : FieldVal → List FilePart → FieldVal × Option String
  | fv, [] => (fv, none)
  | .slice k vs, part :: rest =>
    match populatePart k part with
    | .ok v => bindParts name (.slice k (vs ++ [v])) rest
    | .error e => (.slice k vs, some (name ++ ": " ++ e))
  | .scalar k v0, part :: rest =>
    match populatePart k part with
    | .ok v => bindParts name (.scalar k v) rest
    | .error e => (.scalar k v0, some (name ++ ": " ++ e))

/-- The body of `unpack`'s outer loop for one `(name, values)` pair: look up
the slot (absent names are skipped silently), bind the values, write the slot
back.  The record is threaded explicitly since Go mutates in place. -/
def unpackStep (rec : List Field) (name : String) (values : List String) :
    List Field × Option String :=
  match findSlot rec name with
  | none => (rec, none)
  | some i =>
    match rec[i]? with
    | none => (rec, none)
    | some f =>
      match bindValues name f.value values with
      | (fv, err) => (rec.set i { f with value := fv }, err)

/-- `unpack(fields, form)` from `form/decode.go`: fold `unpackStep` over the
value source, stopping at the first error (which is returned together with the
partially mutated record). -/
def unpack (rec : List Field) : Form → List Field × Option String
  | [] => (rec, none)
  | (name, values) :: rest =>
    match unpackStep rec name values with
    | (rec1, none) => unpack rec1 rest
    | (rec1, some e) => (rec1, some e)

/-- The body of `unpackMultipart`'s outer loop for one `(name, parts)` pair. -/
def unpackPartStep (rec : List Field) (name : String) (parts : List FilePart) :
    List Field × Option String :=
  match findSlot rec name with
  | none => (rec, none)
  | some i =>
    match rec[i]? with
    | none => (rec, none)
    | some f =>
      match bindParts name f.value parts with
      | (fv, err) => (rec.set i { f with value := fv }, err)

/-- `unpackMultipart(fields, m)` from `form/decode.go`. -/
def unpackMultipart (rec : List Field) :
    List (String × List FilePart) → List Field × Option String
  | [] => (rec, none)
  | (name, parts) :: rest =>
    match unpackPartStep rec name parts with
    | (rec1, none) => unpackMultipart rec1 rest
    | (rec1, some e) => (rec1, some e)

/-! ## The request view and the unpack strategies. -/

/-- The view of an `*http.Request` consumed by this system after the
collaborator (`net/http`, `mime/multipart`) has parsed it: the method, the
declared `Content-Type` header text (`""` when absent), the parsed URL query
(`r.URL.Query()`), the parsed posted body values (`r.PostForm`), the parsed
multipart file parts (`r.MultipartForm.File`), and the raw body bytes. -/
structure Request where
  method : String
  contentType : String
  queryForm : Form
  postForm : Form
  multipartFiles : List (String × List GoEncoding.FilePart)
  body : String

/-- All values a form holds under a key (Go form maps hold them grouped). -/
def formValues (form : Form) (k : String) : List String :=
  match form.lookup k with
  | some vs => vs
  | none => []

def hasKey (form : Form) (k : String) : Bool :=
  (form.lookup k).isSome

/-- `r.Form` as `net/http`'s `ParseForm` builds it: a copy of the posted body
values with the URL query values appended per key (`copyValues(r.Form,
newValues)`), so under a shared key the body values come first and the query
values last. -/
def mergeForms (body query : Form) : Form :=
  body.map (fun p => (p.1, p.2 ++ formValues query p.1)) ++
    query.filter (fun p => !(hasKey body p.1))

/-- The `form.Option` enumeration (`Body, Query, Multipart, Mixed,
MixedMultipart`). -/
inductive FormOption
  | body
  | query
  | multipart
  | mixed
  | mixedMultipart
deriving DecidableEq

/-- `form.UnpackWithOption` after the collaborator's body parse: the switch on
the option selects the value source (`r.URL.Query()`, `r.PostForm`, or the
merged `r.Form`), and the two multipart options additionally run
`unpackMultipart` over `r.MultipartForm.File` when the flat unpack succeeded.
(The Go `default:` branch falls through to `Body`; the enumeration here is
closed so no default arm is needed.) -/
def UnpackWithOption (rec : List Field) (r : Request) :
    FormOption → List Field × Option String
  | .query => unpack rec r.queryForm
  | .body => unpack rec r.postForm
  | .mixed => unpack rec (mergeForms r.postForm r.queryForm)
  | .multipart =>
    match unpack rec r.postForm with
    | (rec1, none) => unpackMultipart rec1 r.multipartFiles
    | (rec1, some e) => (rec1, some e)
  | .mixedMultipart =>
    match unpack rec (mergeForms r.postForm r.queryForm) with
    | (rec1, none) => unpackMultipart rec1 r.multipartFiles
    | (rec1, some e) => (rec1, some e)

/-! ## The dispatcher (`reqconv.Unmarshal`). -/

def isTSpecial (c : Char) : Bool :=
  ['(', ')', '<', '>', '@', ',', ';', ':', '\\', '"', '/', '[', ']', '?', '='].contains c

def isTokenChar (c : Char) : Bool :=
  c.toNat > 0x20 && c.toNat < 0x7f && !isTSpecial c

/-- ASCII whitespace, standing in for `unicode.IsSpace` in the trim below. -/
def isSpaceChar (c : Char) : Bool :=
  c = ' ' || c = '\t' || c = '\n' || c = '\r'

/-- Leading and trailing whitespace removed (`strings.TrimSpace`). -/
def trimChars (l : List Char) : List Char :=
  ((l.dropWhile isSpaceChar).reverse.dropWhile isSpaceChar).reverse

/-- Modelled from the spec: the collaborator `mime.ParseMediaType` is not part
of this repository; per §4.2 it parses the media type "ignoring parameters
such as charset".  The base type before the first `;` is trimmed, lower-cased
and validated as `token` or `token/token` (Go's `checkMediaTypeDisposition`);
validation of the parameter section after the `;` is not modelled. -/
def parseMediaType (v : String) : Except String String :=
  let mt := (trimChars (v.data.takeWhile (fun c => c ≠ ';'))).map Char.toLower
  let typ := mt.takeWhile isTokenChar
  let rest := mt.dropWhile isTokenChar
  if typ.isEmpty then Except.error "mime: no media type"
  else
    match rest with
    | [] => Except.ok (String.mk mt)
    | '/' :: r2 =>
      let sub := r2.takeWhile isTokenChar
      let rest2 := r2.dropWhile isTokenChar
      if sub.isEmpty then Except.error "mime: expected token after slash"
      else if ¬ rest2.isEmpty then Except.error "mime: unexpected content after media subtype"
      else Except.ok (String.mk mt)
    | _ => Except.error "mime: expected slash after first token"

/-- The four methods that by convention carry no body (`reqconv.Unmarshal`'s
first switch). -/
def noBodyMethod (m : String) : Bool :=
  m = "GET" || m = "DELETE" || m = "HEAD" || m = "TRACE"

/-- The stage wrapping `fmt.Errorf("parse request body as %s: %v", mediaType,
err)` applied to a strategy's outcome. -/
def wrapStage (mt : String) : List Field × Option String → List Field × Option String
  | (rec, none) => (rec, none)
  | (rec, some e) => (rec, some ("parse request body as " ++ mt ++ ": " ++ e))

/-- `reqconv.Unmarshal`: the no-body methods bind from the URL query alone and
return at once; otherwise the declared content type (defaulted to
`application/octet-stream` when absent) is parsed and the strategy selected by
exact media-type match, with anything else failing as an unsupported content
type naming the literal declared type.  The generic structured-text decoders
(`json.Unmarshal`, `xml.Unmarshal`) are external collaborators with their own
field-matching rules, so they are taken as parameters; every theorem below
quantifies over them. -/
def Unmarshal (jsonDec xmlDec : String → List Field → List Field × Option String)
    (r : Request) (rec : List Field) : List Field × Option String :=
  if noBodyMethod r.method then UnpackWithOption rec r .query
  else
    let ct := if r.contentType = "" then "application/octet-stream" else r.contentType
    match parseMediaType ct with
    | .error e => (rec, some ("parse request media type: " ++ e))
    | .ok mt =>
      if mt = "application/json" then wrapStage mt (jsonDec r.body rec)
      else if mt = "application/xml" then wrapStage mt (xmlDec r.body rec)
      else if mt = "multipart/form-data" then wrapStage mt (UnpackWithOption rec r .multipart)
      else if mt = "application/x-www-form-urlencoded" then wrapStage mt (UnpackWithOption rec r .body)
      else (rec, some ("unsupported content type: " ++ ct))

deriving instance DecidableEq for Except

/-! ## Theorems about the claims. -/

/-- C8. The process-wide multipart memory threshold's default, as initialized
in `form/decode.go`, is `10 * 1024` bytes (10KB) and not the documented
10MB-equivalent `10 * 1024 * 1024`: the literal contradicts the constant's own
doc comment ("Default to 10M"). -/
theorem multipart_max_memory_default_mismatch :
    MultipartMaxMemory = 10 * 1024 ∧ MultipartMaxMemory ≠ 10 * 1024 * 1024 := by
  decide

/-- C4 counterexample. Boolean coercion is not case-insensitive: `tRUE` is a
case-insensitive spelling of the canonical `true` (its characters lower-case
to exactly `true`), yet coercing it into a boolean field fails. -/
theorem bool_coercion_not_case_insensitive :
    "tRUE".data.map Char.toLower = "true".data ∧
    populate .bool "tRUE" =
      .error "strconv.ParseBool: parsing \"tRUE\": invalid syntax" := by
  decide

/-- C4 amended. Coercion into a boolean field succeeds for exactly the twelve
spellings `1, t, T, TRUE, true, True` (giving true) and
`0, f, F, FALSE, false, False` (giving false) — the lower-case, Title-case and
UPPER-case variants of the canonical spellings and aliases, not arbitrary
mixed case — and fails with an error for every other spelling. -/
theorem bool_coercion_exact_spellings (s : String) :
    populate .bool s =
      (if s = "1" ∨ s = "t" ∨ s = "T" ∨ s = "TRUE" ∨ s = "true" ∨ s = "True" then
        Except.ok (.bool true)
      else if s = "0" ∨ s = "f" ∨ s = "F" ∨ s = "FALSE" ∨ s = "false" ∨ s = "False" then
        Except.ok (.bool false)
      else
        Except.error ("strconv.ParseBool: parsing " ++ goQuote s ++ ": invalid syntax")) := by
  simp only [populate, parseBool]
  split_ifs <;> rfl

/-- C5. A non-empty explicit tag value is used verbatim as the external name;
with no tag (or an empty tag value, which Go's `tag.Get` renders identically)
the external name is the declared identifier with only its first character
lower-cased and every remaining character unchanged. -/
theorem external_name_derivation (tagVal fname : String) (fv : FieldVal) :
    (tagVal ≠ "" → effName ⟨fname, tagVal, fv⟩ = tagVal) ∧
    (∀ c cs, fname.data = c :: cs →
      (effName ⟨fname, "", fv⟩).data = c.toLower :: cs) ∧
    effName ⟨fname, "", fv⟩ = lowerFirst fname := by
  refine ⟨fun h => by simp [effName, h], fun c cs h => ?_, by simp [effName]⟩
  simp only [effName, lowerFirst]
  rw [h]
  simp

/-- C5 witness: the field `FooBar` tagged `q` binds under `q` verbatim, and
untagged binds under `fooBar`. -/
theorem external_name_derivation_witness :
    effName ⟨"FooBar", "q", .scalar .string (.str "")⟩ = "q" ∧
    (effName ⟨"FooBar", "", .scalar .string (.str "")⟩).data = 'F'.toLower :: "ooBar".data :=
  ⟨(external_name_derivation "q" "FooBar" _).1 (by decide),
   (external_name_derivation "" "FooBar" _).2.1 'F' "ooBar".data rfl⟩

/-- C10. A scalar field of any kind other than string, int, bool or float64
(for example `int64`, `int32` or `uint`, and also `*multipart.FileHeader`)
rejects every string value with an `unsupported kind` error naming the field's
type; each of the four supported scalar kinds does coerce some value. -/
theorem unsupported_scalar_kinds_always_fail (typeName value : String) :
    populate (.other typeName) value = .error ("unsupported kind " ++ typeName) ∧
    (∀ v, populate .filePtr v = .error "unsupported kind *multipart.FileHeader") ∧
    (∀ v, populate .string v = .ok (.str v)) ∧
    populate .int "233" = .ok (.int 233) ∧
    populate .bool "true" = .ok (.bool true) ∧
    (∃ q, populate .float64 "3.14" = .ok (.float q)) :=
  ⟨rfl, fun _ => rfl, fun _ => rfl, by decide, by decide, ⟨_, rfl⟩⟩

/-- C6. For a request whose method is GET, DELETE, HEAD or TRACE, the
dispatcher binds the record from the URL query component alone and returns
that outcome at once: the result coincides with a bare query unpack, so it
depends on neither the content-type header, the body, the posted form, nor
the structured decoders. -/
theorem no_body_methods_bind_query_only
    (jsonDec xmlDec : String → List Field → List Field × Option String)
    (r : Request) (rec : List Field)
    (h : r.method = "GET" ∨ r.method = "DELETE" ∨ r.method = "HEAD" ∨ r.method = "TRACE") :
    Unmarshal jsonDec xmlDec r rec = unpack rec r.queryForm := by
  have hm : noBodyMethod r.method = true := by
    rcases h with h | h | h | h <;> simp [noBodyMethod, h]
  simp [Unmarshal, hm, UnpackWithOption]

/-- C6 witness: a GET request with a JSON content type and a posted body still
binds from the query alone, and the structured decoders are never consulted. -/
theorem no_body_methods_bind_query_only_witness :
    Unmarshal (fun _ rc => (rc, some "json ran")) (fun _ rc => (rc, some "xml ran"))
      ⟨"GET", "application/json", [("q", ["golang"])], [("q", ["body"])], [], "x"⟩
      [⟨"Q", "q", .scalar .string (.str "")⟩] =
      ([⟨"Q", "q", .scalar .string (.str "golang")⟩], none) :=
  (no_body_methods_bind_query_only _ _ _ _ (Or.inl rfl)).trans (by decide)

/-- C7. On a body-carrying method, when the declared content type (defaulted
to `application/octet-stream` when the header is absent) parses to a media
type other than the four recognized ones, the dispatcher returns the record
untouched together with an `unsupported content type` error naming the
literal declared type — it never silently succeeds without binding. -/
theorem unsupported_content_type_errors
    (jsonDec xmlDec : String → List Field → List Field × Option String)
    (r : Request) (rec : List Field) (m : String)
    (hm : noBodyMethod r.method = false)
    (hp : parseMediaType
      (if r.contentType = "" then "application/octet-stream" else r.contentType) = .ok m)
    (h1 : m ≠ "application/json") (h2 : m ≠ "application/xml")
    (h3 : m ≠ "multipart/form-data") (h4 : m ≠ "application/x-www-form-urlencoded") :
    Unmarshal jsonDec xmlDec r rec =
      (rec, some ("unsupported content type: " ++
        (if r.contentType = "" then "application/octet-stream" else r.contentType))) := by
  simp [Unmarshal, hm, hp, h1, h2, h3, h4]

/-- C7 witness: a POST with declared type `application/javascript` fails
naming that type. -/
theorem unsupported_content_type_errors_witness :
    Unmarshal (fun _ rc => (rc, none)) (fun _ rc => (rc, none))
      ⟨"POST", "application/javascript", [], [], [], "..."⟩ [] =
      ([], some "unsupported content type: application/javascript") :=
  (unsupported_content_type_errors (fun _ rc => (rc, none)) (fun _ rc => (rc, none))
    ⟨"POST", "application/javascript", [], [], [], "..."⟩ [] "application/javascript"
    (by decide) (by decide) (by decide) (by decide) (by decide) (by decide)).trans (by decide)

/-- C1. Binding a record `[A: text, B: integer, C: text]` from a source whose
value for `a` is valid and whose value for `b` is a malformed numeral returns
the error wrapped with `b`'s external name; `A` holds its newly bound value,
`B` is untouched, and the failure aborts the remaining work for this source
(`C`, listed after `B`, is untouched as well).  The value source is processed
in list order, the order the spec's scenario assumes. -/
theorem unpack_partial_mutation_on_failure
    (afn bfn cfn a0 c0 av cv : String) (b0 : Int) (bv e : String)
    (hb : parseInt64 bv = .error e) :
    unpack [⟨afn, "a", .scalar .string (.str a0)⟩,
            ⟨bfn, "b", .scalar .int (.int b0)⟩,
            ⟨cfn, "c", .scalar .string (.str c0)⟩]
      [("a", [av]), ("b", [bv]), ("c", [cv])] =
    ([⟨afn, "a", .scalar .string (.str av)⟩,
      ⟨bfn, "b", .scalar .int (.int b0)⟩,
      ⟨cfn, "c", .scalar .string (.str c0)⟩], some ("b: " ++ e)) := by
  simp [unpack, unpackStep, findSlot, effName, bindValues, populate, hb, Except.map, List.set]

/-- C1 witness: the spec's scenario with `a=hello` and `b=not-a-number`. -/
theorem unpack_partial_mutation_on_failure_witness :
    unpack [⟨"A", "a", .scalar .string (.str "")⟩,
            ⟨"B", "b", .scalar .int (.int 7)⟩,
            ⟨"C", "c", .scalar .string (.str "keep")⟩]
      [("a", ["hello"]), ("b", ["not-a-number"]), ("c", ["ignored"])] =
    ([⟨"A", "a", .scalar .string (.str "hello")⟩,
      ⟨"B", "b", .scalar .int (.int 7)⟩,
      ⟨"C", "c", .scalar .string (.str "keep")⟩],
      some ("b: " ++ "strconv.ParseInt: parsing \"not-a-number\": invalid syntax")) :=
  unpack_partial_mutation_on_failure "A" "B" "C" "" "keep" "hello" "ignored" 7
    "not-a-number" _ (by decide)

/-- Helper for C2: binding a list of values into a scalar text slot always
succeeds and leaves the last value (text coercion cannot fail, and each
coercion overwrites). -/
theorem bindValues_str_scalar (name : String) (vs : List String) (v0 : String) :
    bindValues name (.scalar .string (.str v0)) vs =
      (.scalar .string (.str (vs.getLastD v0)), none) := by
  induction vs generalizing v0 with
  | nil => rfl
  | cons a l ih =>
    simp only [bindValues, populate]
    rw [ih, List.getLastD_cons]

/-- C2. In a merged query-plus-body bind (the `Mixed` strategy), when the
posted body and the URL query both define values for the same scalar external
name, the bound field ends with the query's value: the merged `r.Form` lists
the body values first and the query values last, and scalar binding lets the
last occurrence win. -/
theorem mixed_bind_query_wins (fn d v0 qval m ct bd : String) (bvals : List String)
    (files : List (String × List FilePart)) (hd : d ≠ "") (_hb : bvals ≠ []) :
    UnpackWithOption [⟨fn, d, .scalar .string (.str v0)⟩]
      ⟨m, ct, [(d, [qval])], [(d, bvals)], files, bd⟩ .mixed =
    ([⟨fn, d, .scalar .string (.str qval)⟩], none) := by
  simp [UnpackWithOption, mergeForms, formValues, hasKey, List.lookup, unpack, unpackStep,
    findSlot, effName, hd, bindValues_str_scalar, List.getLastD_concat, List.set]

/-- C2 witness: the spec's scenario, query `default=888` against body
`default=999`, ends with `888`. -/
theorem mixed_bind_query_wins_witness :
    UnpackWithOption [⟨"Default", "default", .scalar .string (.str "2333")⟩]
      ⟨"POST", "application/x-www-form-urlencoded", [("default", ["888"])],
        [("default", ["999"])], [], ""⟩ .mixed =
    ([⟨"Default", "default", .scalar .string (.str "888")⟩], none) :=
  mixed_bind_query_wins "Default" "default" "2333" "888" "POST"
    "application/x-www-form-urlencoded" "" ["999"] [] (by decide) (by decide)

/-- C3. A sequence-of-integer field receiving the repeated values `1, 2, 3`
under its external name from a single value source binds to `[1, 2, 3]` in
source order, whether the source is the query (Query strategy), the posted
body (Body strategy), or the merged form (Mixed strategy) with the values
coming from either component alone. -/
theorem int_slice_bind_source_order (fn t m ct bd : String)
    (files : List (String × List FilePart)) (ht : t ≠ "") :
    UnpackWithOption [⟨fn, t, .slice .int []⟩]
      ⟨m, ct, [(t, ["1", "2", "3"])], [], files, bd⟩ .query =
      ([⟨fn, t, .slice .int [.int 1, .int 2, .int 3]⟩], none) ∧
    UnpackWithOption [⟨fn, t, .slice .int []⟩]
      ⟨m, ct, [], [(t, ["1", "2", "3"])], files, bd⟩ .body =
      ([⟨fn, t, .slice .int [.int 1, .int 2, .int 3]⟩], none) ∧
    UnpackWithOption [⟨fn, t, .slice .int []⟩]
      ⟨m, ct, [(t, ["1", "2", "3"])], [], files, bd⟩ .mixed =
      ([⟨fn, t, .slice .int [.int 1, .int 2, .int 3]⟩], none) ∧
    UnpackWithOption [⟨fn, t, .slice .int []⟩]
      ⟨m, ct, [], [(t, ["1", "2", "3"])], files, bd⟩ .mixed =
      ([⟨fn, t, .slice .int [.int 1, .int 2, .int 3]⟩], none) := by
  have h1 : populate .int "1" = .ok (.int 1) := by decide
  have h2 : populate .int "2" = .ok (.int 2) := by decide
  have h3 : populate .int "3" = .ok (.int 3) := by decide
  refine ⟨?_, ?_, ?_, ?_⟩ <;>
    simp [UnpackWithOption, mergeForms, formValues, hasKey, List.lookup, unpack, unpackStep,
      findSlot, effName, ht, bindValues, h1, h2, h3, List.set]

/-- C3 witness: the external name `array`, as in
`array=1&array=2&array=3`. -/
theorem int_slice_bind_source_order_witness :
    UnpackWithOption [⟨"Array", "array", .slice .int []⟩]
      ⟨"GET", "", [("array", ["1", "2", "3"])], [], [], ""⟩ .query =
      ([⟨"Array", "array", .slice .int [.int 1, .int 2, .int 3]⟩], none) ∧
    UnpackWithOption [⟨"Array", "array", .slice .int []⟩]
      ⟨"GET", "", [], [("array", ["1", "2", "3"])], [], ""⟩ .body =
      ([⟨"Array", "array", .slice .int [.int 1, .int 2, .int 3]⟩], none) ∧
    UnpackWithOption [⟨"Array", "array", .slice .int []⟩]
      ⟨"GET", "", [("array", ["1", "2", "3"])], [], [], ""⟩ .mixed =
      ([⟨"Array", "array", .slice .int [.int 1, .int 2, .int 3]⟩], none) ∧
    UnpackWithOption [⟨"Array", "array", .slice .int []⟩]
      ⟨"GET", "", [], [("array", ["1", "2", "3"])], [], ""⟩ .mixed =
      ([⟨"Array", "array", .slice .int [.int 1, .int 2, .int 3]⟩], none) :=
  int_slice_bind_source_order "Array" "array" "GET" "" "" [] (by decide)

/-! ## Frame lemmas for C9. -/

/-- Rewriting a field's value leaves its effective external name unchanged. -/
theorem effName_set_value (f : Field) (fv : FieldVal) :
    effName { f with value := fv } = effName f := rfl

/-- A slot returned by `findSlot` exists and carries the looked-up name. -/
theorem findSlot_sound : ∀ (rec : List Field) (name : String) (i : Nat),
    findSlot rec name = some i → ∃ f, rec[i]? = some f ∧ effName f = name := by
  intro rec
  induction rec with
  | nil => intro name i h; simp [findSlot] at h
  | cons f rest ih =>
    intro name i h
    simp only [findSlot] at h
    cases hr : findSlot rest name with
    | some j =>
      rw [hr] at h
      obtain ⟨g, hg, he⟩ := ih name j hr
      cases h
      exact ⟨g, by simpa using hg, he⟩
    | none =>
      rw [hr] at h
      by_cases hefn : effName f = name
      · simp only [hefn, if_pos rfl] at h
        cases h
        exact ⟨f, by simp, hefn⟩
      · simp [hefn] at h

/-- Updating one slot's value leaves the record's list of effective names
unchanged. -/
theorem map_effName_set : ∀ (rec : List Field) (i : Nat) (f : Field) (fv : FieldVal),
    rec[i]? = some f →
    (rec.set i { f with value := fv }).map effName = rec.map effName := by
  intro rec
  induction rec with
  | nil => intro i f fv h; simp at h
  | cons g rest ih =>
    intro i f fv h
    cases i with
    | zero =>
      simp only [List.getElem?_cons_zero, Option.some.injEq] at h
      subst h
      simp [List.set, effName]
    | succ j =>
      simp only [List.getElem?_cons_succ] at h
      simp [List.set, ih j f fv h]

/-- Records with the same effective names resolve every lookup alike. -/
theorem findSlot_congr : ∀ (rec rec2 : List Field),
    rec.map effName = rec2.map effName → ∀ n, findSlot rec n = findSlot rec2 n := by
  intro rec
  induction rec with
  | nil =>
    intro rec2 h n
    cases rec2 with
    | nil => rfl
    | cons g rest2 => simp at h
  | cons f rest ih =>
    intro rec2 h n
    cases rec2 with
    | nil => simp at h
    | cons g rest2 =>
      simp only [List.map_cons, List.cons.injEq] at h
      obtain ⟨h1, h2⟩ := h
      simp [findSlot, ih rest2 h2 n, h1]

/-- Equation for `unpackStep` when the name matches no slot. -/
theorem unpackStep_none (rec : List Field) (n : String) (vs : List String)
    (h : findSlot rec n = none) : unpackStep rec n vs = (rec, none) := by
  unfold unpackStep
  rw [h]

/-- Equation for `unpackStep` when the slot index falls outside the record
(unreachable for lookups produced by `findSlot`, kept for totality). -/
theorem unpackStep_oob (rec : List Field) (n : String) (vs : List String) (i : Nat)
    (hi : findSlot rec n = some i) (hg : rec[i]? = none) :
    unpackStep rec n vs = (rec, none) := by
  unfold unpackStep
  simp only [hi, hg]

/-- Equation for `unpackStep` when the name resolves to slot `i` holding `f`. -/
theorem unpackStep_some (rec : List Field) (n : String) (vs : List String)
    (i : Nat) (f : Field) (fv : FieldVal) (err : Option String)
    (hi : findSlot rec n = some i) (hf : rec[i]? = some f)
    (hb : bindValues n f.value vs = (fv, err)) :
    unpackStep rec n vs = (rec.set i { f with value := fv }, err) := by
  unfold unpackStep
  simp only [hi, hf, hb]

/-- One outer-loop step does not change the record's effective names. -/
theorem unpackStep_names (rec : List Field) (n : String) (vs : List String) :
    (unpackStep rec n vs).1.map effName = rec.map effName := by
  cases hfs : findSlot rec n with
  | none => rw [unpackStep_none rec n vs hfs]
  | some i =>
    cases hg : rec[i]? with
    | none => rw [unpackStep_oob rec n vs i hfs hg]
    | some f =>
      cases hbv : bindValues n f.value vs with
      | mk fv err =>
        rw [unpackStep_some rec n vs i f fv err hfs hg hbv]
        exact map_effName_set rec i f fv hg

/-- One outer-loop step for a name different from a field's effective name
leaves that field untouched. -/
theorem unpackStep_preserve (rec : List Field) (n : String) (vs : List String)
    (i : Nat) (f : Field) (hf : rec[i]? = some f) (hn : n ≠ effName f) :
    (unpackStep rec n vs).1[i]? = some f := by
  cases hfs : findSlot rec n with
  | none => rw [unpackStep_none rec n vs hfs]; exact hf
  | some j =>
    cases hg : rec[j]? with
    | none => rw [unpackStep_oob rec n vs j hfs hg]; exact hf
    | some g =>
      obtain ⟨g2, hg2, he⟩ := findSlot_sound rec n j hfs
      rw [hg] at hg2
      cases hg2
      have hij : j ≠ i := by
        intro hji
        subst hji
        rw [hf] at hg
        cases hg
        exact hn he.symm
      cases hbv : bindValues n g.value vs with
      | mk fv err =>
        rw [unpackStep_some rec n vs j g fv err hfs hg hbv]
        simpa [List.getElem?_set_ne hij] using hf

/-- A field whose effective name occurs in no key of the value source keeps
exactly its pre-set contents across the whole bind, erroring or not. -/
theorem unpack_preserve : ∀ (form : Form) (rec : List Field) (i : Nat) (f : Field),
    rec[i]? = some f → (∀ p ∈ form, p.1 ≠ effName f) →
    (unpack rec form).1[i]? = some f := by
  intro form
  induction form with
  | nil => intro rec i f hf _; simpa [unpack] using hf
  | cons p rest ih =>
    intro rec i f hf hforall
    obtain ⟨n, vs⟩ := p
    have hn : n ≠ effName f := hforall (n, vs) (List.mem_cons_self _ _)
    have hstep := unpackStep_preserve rec n vs i f hf hn
    simp only [unpack]
    cases hs : unpackStep rec n vs with
    | mk rec1 err =>
      rw [hs] at hstep
      cases err with
      | none => exact ih rec1 i f hstep (fun q hq => hforall q (List.mem_cons_of_mem _ hq))
      | some e => exact hstep

/-- The whole bind does not change the record's effective names. -/
theorem unpack_names : ∀ (form : Form) (rec : List Field),
    (unpack rec form).1.map effName = rec.map effName := by
  intro form
  induction form with
  | nil => intro rec; rfl
  | cons p rest ih =>
    intro rec
    obtain ⟨n, vs⟩ := p
    simp only [unpack]
    cases hs : unpackStep rec n vs with
    | mk rec1 err =>
      have hnames : rec1.map effName = rec.map effName := by
        have h := unpackStep_names rec n vs
        rw [hs] at h
        exact h
      cases err with
      | none => rw [ih rec1, hnames]
      | some e => simpa using hnames

/-- Dropping every pair whose key matches no field changes nothing: such keys
are skipped silently, causing neither an error nor any mutation. -/
theorem unpack_skip_unmatched : ∀ (form : Form) (rec : List Field),
    unpack rec (form.filter fun p => (findSlot rec p.1).isSome) = unpack rec form := by
  intro form
  induction form with
  | nil => intro rec; rfl
  | cons p rest ih =>
    intro rec
    obtain ⟨n, vs⟩ := p
    by_cases hfs : (findSlot rec n).isSome
    · rw [List.filter_cons_of_pos (by simpa using hfs)]
      simp only [unpack]
      cases hs : unpackStep rec n vs with
      | mk rec1 err =>
        cases err with
        | none =>
          have hnames : rec1.map effName = rec.map effName := by
            have h := unpackStep_names rec n vs
            rw [hs] at h
            exact h
          have hfilter : rest.filter (fun q => (findSlot rec q.1).isSome) =
              rest.filter (fun q => (findSlot rec1 q.1).isSome) := by
            refine List.filter_congr (fun q _ => ?_)
            rw [findSlot_congr rec rec1 hnames.symm q.1]
          rw [hfilter]
          exact ih rec1
        | some e => rfl
    · have hnone : findSlot rec n = none := Option.not_isSome_iff_eq_none.mp hfs
      have hstep : unpackStep rec n vs = (rec, none) := by
        unfold unpackStep
        rw [hnone]
      rw [List.filter_cons_of_neg (by simpa using hfs)]
      conv_rhs => rw [unpack, hstep]
      exact ih rec

/-- C9. Frame property of `bind`: a record field whose external name occurs in
no key of the value source holds, after the call, exactly the value the
caller pre-set; and every key matching no field's external name is skipped
silently — removing all such keys changes neither the resulting record nor
the error outcome. -/
theorem bind_frame_unmatched (rec : List Field) (form : Form) :
    (∀ (i : Nat) (f : Field), rec[i]? = some f → (∀ p ∈ form, p.1 ≠ effName f) →
      (unpack rec form).1[i]? = some f) ∧
    unpack rec (form.filter fun p => (findSlot rec p.1).isSome) = unpack rec form :=
  ⟨fun i f hf hfa => unpack_preserve form rec i f hf hfa,
   unpack_skip_unmatched form rec⟩

/-- C9 witness: the spec's default-preservation and unrecognized-key
scenarios — field `Default="2333"` is untouched by a source containing only
the unrecognized key `extra`, and filtering `extra` away changes nothing. -/
theorem bind_frame_unmatched_witness :
    (unpack [⟨"Default", "default", .scalar .string (.str "2333")⟩]
        [("extra", ["1"])]).1[0]? =
      some ⟨"Default", "default", .scalar .string (.str "2333")⟩ ∧
    unpack [⟨"Default", "default", .scalar .string (.str "2333")⟩]
        ([("extra", ["1"])].filter fun p =>
          (findSlot [⟨"Default", "default", .scalar .string (.str "2333")⟩] p.1).isSome) =
      unpack [⟨"Default", "default", .scalar .string (.str "2333")⟩] [("extra", ["1"])] :=
  ⟨(bind_frame_unmatched [⟨"Default", "default", .scalar .string (.str "2333")⟩]
      [("extra", ["1"])]).1 0 ⟨"Default", "default", .scalar .string (.str "2333")⟩
      rfl (by decide),
   (bind_frame_unmatched [⟨"Default", "default", .scalar .string (.str "2333")⟩]
      [("extra", ["1"])]).2⟩

end GoEncoding
